import Mathlib

/-!
Verification of the OpenCode Host Companion daemon (host CLI).

The daemon is a single-threaded event-driven process; its state-mutating
operations are embedded here as pure functions over explicit state.  JavaScript
strings are embedded as lists of characters (`Str`), machine integers and
`Date.now()` timestamps as `Nat` (milliseconds), and the external effects
(spawning a child process, binding a TCP listener, the Convex database, the
worker's HTTP endpoints) as explicit parameters or effect traces.
-/

/-- JavaScript strings, embedded as lists of characters. -/
abbrev Str := List Char

/-- Shorthand turning a Lean string literal into the embedded string type. -/
def strL (s : String) : Str := s.toList

/-- JS `String.prototype.split` with a one-character separator: splits the
string at every occurrence of `sep`; `""` splits to `[""]`, and separators at
the ends produce empty fields, exactly as in JavaScript. -/
def splitOnChar (sep : Char) : Str → List Str
  | [] => [[]]
  | c :: cs =>
    match splitOnChar sep cs with
    | [] => [[]]
    | r :: rs => if c = sep then [] :: r :: rs else (c :: r) :: rs

-- ---------------------------------------------------------------------------
-- Port management (`findAvailablePort`)
-- ---------------------------------------------------------------------------

/-- The body of `findAvailablePort`'s `for (let port = min; port <= max; port++)`
loop.  `used` is membership in the set of ports held by tracked workers
(`usedPorts`), and `bindOk` abstracts the `Bun.serve` bind probe.  The loop is
written with an explicit iteration budget `fuel`; `findAvailablePort` supplies
`max + 1 - min`, the exact number of iterations the source loop can make, so
the `port ≤ max` guard is what actually ends the scan. -/
def findAvailablePortLoop (used bindOk : Nat → Bool) (max : Nat) : Nat → Nat → Option Nat
  | 0, _ => none
  | fuel + 1, port =>
    if port ≤ max then
      if used port then findAvailablePortLoop used bindOk max fuel (port + 1)
      else if bindOk port then some port
      else findAvailablePortLoop used bindOk max fuel (port + 1)
    else none

/-- `findAvailablePort(min, max)` of the host CLI: ascending scan over the
inclusive range, skipping ports already used by `activeProcesses`, probing the
rest, returning the first bindable port; `none` models the thrown
`No available ports in range` error. -/
def findAvailablePort (min max : Nat) (used bindOk : Nat → Bool) : Option Nat :=
  findAvailablePortLoop used bindOk max (max + 1 - min) min

-- ---------------------------------------------------------------------------
-- Worker supervisor (`activeProcesses`, `startOpencodeServe`)
-- ---------------------------------------------------------------------------

/-- One entry of the `activeProcesses` map (`interface ActiveProcess`); the
`childProcess` handle is represented by its pid. -/
structure ActiveProcess where
  path : Str
  port : Nat
  pid : Nat
  startedAt : Nat
  lastActivity : Nat
deriving DecidableEq

/-- The `activeProcesses : Map<string, ActiveProcess>` global; the key of an
entry is its `path` field, and iteration order is insertion order. -/
abbrev ProcMap := List ActiveProcess

/-- `activeProcesses.get(directory)`. -/
def lookupProc : ProcMap → Str → Option ActiveProcess
  | [], _ => none
  | r :: rs, d => if r.path = d then some r else lookupProc rs d

/-- The `existing.lastActivity = Date.now()` update on the record held for
directory `d`. -/
def touchProc : ProcMap → Str → Nat → ProcMap
  | [], _, _ => []
  | r :: rs, d, now =>
    if r.path = d then { r with lastActivity := now } :: rs
    else r :: touchProc rs d now

/-- `activeProcesses.delete(d)`. -/
def eraseProc (m : ProcMap) (d : Str) : ProcMap := m.filter (fun r => r.path ≠ d)

/-- The directories currently holding a worker record. -/
def procPaths (m : ProcMap) : List Str := m.map (fun r => r.path)

/-- The `usedPorts` set built at the top of `findAvailablePort` from
`activeProcesses.values()`. -/
def usedPorts (m : ProcMap) (q : Nat) : Bool := m.any (fun r => r.port = q)

/-- Outcome of `startOpencodeServe`: the returned `{port, pid}` or one of its
two throw sites (port exhaustion from `findAvailablePort`, startup timeout
from `waitForOpencodeReady`). -/
inductive StartResult
  | ok (port pid : Nat)
  | portsExhausted
  | startupTimeout
deriving DecidableEq

/-- Process-level side effects of `startOpencodeServe`: `spawn(...)` and
`child.kill("SIGTERM")`. -/
inductive StartEffect
  | spawnProc (pid port : Nat)
  | killProc (pid : Nat)
deriving DecidableEq

/-- `startOpencodeServe(directory)`.  The external world enters through
`bindOk` (the port probe), `spawnPid` (the pid the OS gives the spawned child)
and `healthOk` (whether `waitForOpencodeReady` sees a healthy `/health` within
its 30s budget).  Returns the result, the `activeProcesses` map afterwards and
the trace of process effects.  The source registers the record before the
health wait and deletes it again on timeout; the function returns the net
state after the call. -/
def startOpencodeServe (portMin portMax : Nat) (bindOk : Nat → Bool)
    (m : ProcMap) (directory : Str) (now spawnPid : Nat) (healthOk : Bool) :
    StartResult × ProcMap × List StartEffect :=
  match lookupProc m directory with
  | some existing => (.ok existing.port existing.pid, touchProc m directory now, [])
  | none =>
    match findAvailablePort portMin portMax (usedPorts m) bindOk with
    | none => (.portsExhausted, m, [])
    | some port =>
      let child : ActiveProcess :=
        { path := directory, port := port, pid := spawnPid,
          startedAt := now, lastActivity := now }
      let m1 := m ++ [child]
      if healthOk then (.ok port spawnPid, m1, [.spawnProc spawnPid port])
      else (.startupTimeout, eraseProc m1 directory,
            [.spawnProc spawnPid port, .killProc spawnPid])

/-- Concrete worker record used to instantiate the supervisor theorems. -/
def procW : ActiveProcess :=
  { path := strL "/home/u/Documents/proj", port := 4096, pid := 42,
    startedAt := 10, lastActivity := 10 }

/-- Concrete one-entry `activeProcesses` map for the supervisor witnesses. -/
def procMapW : ProcMap := [procW]

-- ---------------------------------------------------------------------------
-- JWT (simple HMAC-based)
-- ---------------------------------------------------------------------------

/-- The claim set carried by the daemon's JWTs, as minted by
`handleAuthenticate`: subject, host id, directory list, issued-at and expiry
(Unix seconds).  `exp := none` models a payload with no `exp` member; a stored
`exp` of `0` is JS-falsy and is treated by the source exactly like a missing
one, which the embedding keeps visible by testing the value, not the option. -/
structure JwtPayload where
  sub : Str
  hostId : Str
  directories : List Str
  iat : Nat
  exp : Option Nat
deriving DecidableEq

/-- The external primitives `createJwt`/`verifyJwt` call out to: base64url
encoding/decoding (`base64UrlEncode`/`base64UrlDecode` over `Buffer`),
`JSON.stringify`/`JSON.parse` for the payload, and `createHmac("sha256", secret)`
followed by base64url post-processing.  They are library code, not code of this
repository, so they enter the embedding as parameters; the theorems assume only
the round-trip facts the libraries guarantee (decoding inverts encoding, parse
inverts stringify on JSON-representable data, and none of the encoded pieces
contains the `.` separator, which holds because base64url's alphabet has no
dot). -/
structure JwtPrims where
  b64enc : Str → Str
  b64dec : Str → Str
  stringify : JwtPayload → Str
  parse : Str → Option JwtPayload
  hmac : Str → Str → Str

/-- `JSON.stringify({ alg: "HS256", typ: "JWT" })`, the fixed JWT header. -/
def headerJson : Str := strL "\x7b\"alg\":\"HS256\",\"typ\":\"JWT\"\x7d"

/-- The expiry test inside `verifyJwt`:
`payload.exp && Date.now() / 1000 > payload.exp`.  The JS comparison
`nowMs / 1000 > exp` on exact floats is equivalent to `nowMs > 1000 * exp`
for integer `exp`, which is how it is written here; the leading `payload.exp`
truthiness test makes a zero expiry never count as expired. -/
def jwtExpired (exp : Option Nat) (nowMs : Nat) : Bool :=
  match exp with
  | none => false
  | some e => e != 0 && decide (1000 * e < nowMs)

/-- `createJwt(payload, secret)`: base64url header and body joined by dots and
signed with the HMAC primitive. -/
def createJwt (P : JwtPrims) (payload : JwtPayload) (secret : Str) : Str :=
  let header := P.b64enc headerJson
  let body := P.b64enc (P.stringify payload)
  let signature := P.hmac secret (header ++ ('.' :: body))
  header ++ ('.' :: (body ++ ('.' :: signature)))

/-- `verifyJwt(token, secret, options)`: split on dots into exactly three
parts, recompute and compare the signature, parse the body, then apply the
expiry rule unless `allowExpired`; any failure (wrong shape, bad signature,
unparsable body) returns `none`, as the source's catch-all does. -/
def verifyJwt (P : JwtPrims) (token secret : Str) (allowExpired : Bool)
    (nowMs : Nat) : Option JwtPayload :=
  match splitOnChar '.' token with
  | [header, body, sig] =>
    let expectedSig := P.hmac secret (header ++ ('.' :: body))
    if sig = expectedSig then
      match P.parse (P.b64dec body) with
      | some payload =>
        if !allowExpired && jwtExpired payload.exp nowMs then none
        else some payload
      | none => none
    else none
  | _ => none

/-- `isJwtBeyondGrace(payload, graceMs)`: true only when the payload carries a
nonzero numeric expiry and `Date.now()` is past `exp * 1000 + graceMs` (the
source's `!exp` guard makes a zero product fall out early). -/
def isJwtBeyondGrace (payload : JwtPayload) (graceMs nowMs : Nat) : Bool :=
  match payload.exp with
  | none => false
  | some e => if 1000 * e = 0 then false else decide (1000 * e + graceMs < nowMs)

/-- The 24-hour grace window `handleRefreshJwt` passes to `isJwtBeyondGrace`. -/
def refreshGraceMs : Nat := 24 * 60 * 60 * 1000

/-- Error text thrown by `handleRefreshJwt` when the request has no token. -/
def missingJwtMsg : Str := strL "Missing JWT"

/-- Error text thrown by `handleRefreshJwt` on a bad signature or shape. -/
def invalidJwtMsg : Str := strL "Invalid JWT"

/-- Error text thrown by `handleRefreshJwt` past the grace window. -/
def jwtExpiredMsg : Str := strL "JWT expired"

/-- `handleRefreshJwt(request)`: verify the old token allowing expiry, reject
beyond the grace window, otherwise drop the old `exp`/`iat`, carry the rest of
the claims forward and mint a fresh 30-day token.  `.error` models the thrown
`Error`, which the dispatcher converts into a failed outcome (nothing is
minted on that path). -/
def handleRefreshJwt (P : JwtPrims) (secret : Str) (jwt : Option Str)
    (nowMs : Nat) : Except Str Str :=
  match jwt with
  | none => .error missingJwtMsg
  | some token =>
    match verifyJwt P token secret true nowMs with
    | none => .error invalidJwtMsg
    | some claims =>
      if isJwtBeyondGrace claims refreshGraceMs nowMs then .error jwtExpiredMsg
      else
        .ok (createJwt P
          { claims with iat := nowMs / 1000, exp := some (nowMs / 1000 + 30 * 24 * 60 * 60) }
          secret)

/-- Concrete payload instantiating the JWT theorems: expiry at 100 s. -/
def payloadW : JwtPayload :=
  { sub := strL "host-authentication", hostId := strL "3847291056",
    directories := [], iat := 1, exp := some 100 }

/-- Concrete signing secret for the JWT witnesses. -/
def secretW : Str := strL "k"

/-- Concrete payload serializer for the JWT witnesses: fields joined with a
bar, numbers in decimal, so no dot ever appears. -/
def stringifyW (p : JwtPayload) : Str :=
  p.sub ++ '|' :: p.hostId ++ '|' :: Nat.toDigits 10 p.iat ++
    '|' :: (match p.exp with | some e => Nat.toDigits 10 e | none => [])

/-- Concrete payload parser for the JWT witnesses: inverts `stringifyW` on the
payloads the witnesses use. -/
def parseW (s : Str) : Option JwtPayload :=
  if s = stringifyW payloadW then some payloadW else none

/-- Concrete primitive bundle for the JWT witnesses: identity base64 transport,
a constant dot-free MAC, and the serializer pair above. -/
def jwtPrimsW : JwtPrims :=
  { b64enc := fun s => s, b64dec := fun s => s,
    stringify := stringifyW, parse := parseW,
    hmac := fun _ _ => strL "sig" }

/-- The witness token: `createJwt` of `payloadW` under `jwtPrimsW`. -/
def tokenW : Str := createJwt jwtPrimsW payloadW secretW

-- ---------------------------------------------------------------------------
-- Filesystem scanning (`listDirectories`)
-- ---------------------------------------------------------------------------

/-- Split a path on slashes. -/
def splitPath (s : Str) : List Str := splitOnChar '/' s

/-- Normalization step of Node's `path.resolve` on an absolute joined path:
empty and `.` segments are dropped, `..` pops the last kept segment (and is a
no-op at the root), and every other segment is pushed. -/
def resolveSegs (segs : List Str) : List Str :=
  segs.foldl
    (fun stack seg =>
      if seg = [] then stack
      else if seg = ['.'] then stack
      else if seg = ['.', '.'] then stack.dropLast
      else stack ++ [seg])
    []

/-- Reassemble an absolute path from its kept segments. -/
def joinAbs (segs : List Str) : Str :=
  if segs = [] then ['/'] else segs.foldl (fun acc seg => acc ++ '/' :: seg) []

/-- Node `resolve(base, rel)` for an absolute `base` and a relative `rel`
(the call sites strip leading slashes from `rel` first): join and normalize. -/
def resolvePath (base rel : Str) : Str :=
  joinAbs (resolveSegs (splitPath base ++ splitPath rel))

/-- The call-site preprocessing `requestedPath.replace(/^\/+/, "")`. -/
def stripLeadingSlashes (s : Str) : Str := s.dropWhile (fun c => c = '/')

/-- What `listDirectories` does before touching the filesystem: either the
`Access denied: path outside base directory` throw, or the first filesystem
call (`existsSync`, then `readdirSync`) on the resolved path. -/
inductive ListDirsStep
  | accessDenied
  | fsAccess (fullPath : Str)
deriving DecidableEq

/-- The guard of `listDirectories(basePath, requestedPath)`: resolve the
stripped request against the base path and reject unless the result has the
base path as a string prefix (`fullPath.startsWith(basePath)`); on acceptance
the function proceeds to `existsSync`/`readdirSync` on `fullPath`. -/
def listDirectories (basePath requestedPath : Str) : ListDirsStep :=
  let fullPath := resolvePath basePath (stripLeadingSlashes requestedPath)
  if basePath.isPrefixOf fullPath then .fsAccess fullPath else .accessDenied

/-- Whether `fullPath` escapes `basePath` in the spec's sense: it is neither
the base path itself nor a path inside the base directory. -/
def escapesBase (basePath fullPath : Str) : Bool :=
  decide (fullPath ≠ basePath) && !((basePath ++ ['/']).isPrefixOf fullPath)

-- ---------------------------------------------------------------------------
-- Tool pause/resume (`pendingTools`, `pollAndSubmitToolResult`, Convex side)
-- ---------------------------------------------------------------------------

/-- `interface PendingTool` — one blocked tool invocation; the tool input is
kept as its serialized form. -/
structure PendingTool where
  toolName : Str
  toolInput : Str
  toolCallId : Str
  sessionId : Str
  port : Nat
deriving DecidableEq

/-- The `toolResult` field a client stores via the `submitToolResult`
mutation: whatever tool-call id and payload the client chose to send. -/
structure ToolResult where
  toolCallId : Str
  result : Str
deriving DecidableEq

/-- The slice of a Convex `requests` row the tool handshake reads and writes. -/
structure RequestDoc where
  pendingTool : Option PendingTool
  toolResult : Option ToolResult
deriving DecidableEq

/-- The Convex `submitToolResult` mutation: patches the row's `toolResult`
with the submitted id and payload, unconditionally — no comparison against the
row's `pendingTool`. -/
def submitToolResult (req : RequestDoc) (toolCallId result : Str) : RequestDoc :=
  { req with toolResult := some { toolCallId := toolCallId, result := result } }

/-- The `pendingTools : Map<string, PendingTool>` global, keyed by request id. -/
abbrev PendingMap := List (Str × PendingTool)

/-- `pendingTools.get(requestId)`. -/
def lookupPending : PendingMap → Str → Option PendingTool
  | [], _ => none
  | e :: es, rid => if e.1 = rid then some e.2 else lookupPending es rid

/-- `pendingTools.delete(requestId)`. -/
def erasePending (m : PendingMap) (requestId : Str) : PendingMap :=
  m.filter (fun e => e.1 ≠ requestId)

/-- The observable outcome of one `pollAndSubmitToolResult` call: its boolean
return value, the body (if any) it POSTed to the worker's
`/session/:id/tool` endpoint, and the `pendingTools` map afterwards. -/
structure PollOutcome where
  submitted : Bool
  forwarded : Option ToolResult
  pendingTools : PendingMap
deriving DecidableEq

/-- `pollAndSubmitToolResult(requestId, port, sessionId, timeoutMs)`: poll the
request row every 500 ms up to the bound (`fuel` is the number of polls the
bound allows, `k` the current poll index); `status k` is the `toolResult` the
`getToolStatus` query returns at poll `k`, and `workerOk` is whether the
worker accepted the forwarded result.  On an accepted forward it deletes the
pending entry and returns true; on a rejected forward it returns false leaving
the entry; when the budget runs out it returns false leaving the entry. -/
def pollAndSubmitToolResult (status : Nat → Option ToolResult)
    (workerOk : ToolResult → Bool) (pt : PendingMap) (requestId : Str) :
    Nat → Nat → PollOutcome
  | 0, _ => { submitted := false, forwarded := none, pendingTools := pt }
  | fuel + 1, k =>
    match status k with
    | some tr =>
      if workerOk tr then
        { submitted := true, forwarded := some tr,
          pendingTools := erasePending pt requestId }
      else { submitted := false, forwarded := some tr, pendingTools := pt }
    | none => pollAndSubmitToolResult status workerOk pt requestId fuel (k + 1)

/-- Concrete request id for the tool-handshake theorems. -/
def ridW : Str := strL "req-1"

/-- Concrete pending invocation (tool-call id `call-a`) for the tool-handshake
theorems. -/
def pendingW : PendingTool :=
  { toolName := strL "ask", toolInput := strL "q", toolCallId := strL "call-a",
    sessionId := strL "sess", port := 4096 }

/-- Concrete request row blocked on `pendingW`. -/
def reqDocW : RequestDoc := { pendingTool := some pendingW, toolResult := none }

/-- Concrete accepted tool result for the tool-handshake witnesses. -/
def toolResultW : ToolResult := { toolCallId := strL "call-a", result := strL "yes" }

-- ---------------------------------------------------------------------------
-- Relay streaming (`relayMessageStreaming` event loop)
-- ---------------------------------------------------------------------------

/-- Accumulator kind of a message part. -/
inductive PartKind
  | text
  | reasoning
deriving DecidableEq

/-- The SSE events `relayMessageStreaming` switches on, after JSON parsing.
`rawType` stands for the already-coalesced
`part?.type ?? type ?? partType ?? null`, `none` when that chain yields a
non-string.  `otherEvent` covers `message.updated`, `tool.result` and every
event type the switch ignores, none of which touch the accumulators. -/
inductive SseEvent
  | partDelta (sessionID : Str) (partID : Option Str) (rawType : Option Str) (delta : Str)
  | partAdded (sessionID : Str) (partID : Option Str) (rawType : Option Str)
  | sessionStatus (sessionID : Str) (statusType : Str)
  | toolInvoke (toolCallId toolName : Option Str) (toolInput : Str)
  | otherEvent
deriving DecidableEq

/-- Running accumulator state of one relay: the two growing strings and the
`partKinds` map. -/
structure RelayState where
  accumulatedText : Str
  accumulatedReasoning : Str
  partKinds : List (Str × PartKind)
deriving DecidableEq

/-- What the relay resolves with: `{ aiResponse, reasoning }`. -/
structure RelayResult where
  aiResponse : Str
  reasoning : Str
deriving DecidableEq

/-- The `"(No response)"` placeholder. -/
def noResponseStr : Str := strL "(No response)"

/-- The `"idle"` session status type. -/
def idleStr : Str := strL "idle"

/-- `partKinds.get(partId)`. -/
def lookupKind : List (Str × PartKind) → Str → Option PartKind
  | [], _ => none
  | e :: es, pid => if e.1 = pid then some e.2 else lookupKind es pid

/-- `partKinds.set(partId, kind)` (JS `Map.set`: overwrite or append). -/
def setKind (m : List (Str × PartKind)) (pid : Str) (k : PartKind) :
    List (Str × PartKind) :=
  if (lookupKind m pid).isSome then
    m.map (fun e => if e.1 = pid then (pid, k) else e)
  else m ++ [(pid, k)]

/-- Lowercasing used on the raw part type. -/
def lowerStr (s : Str) : Str := s.map Char.toLower

/-- JS `String.prototype.includes`: substring containment. -/
def containsSub (needle hay : Str) : Bool :=
  hay.tails.any (fun t => needle.isPrefixOf t)

/-- Classification of a raw part type: `reasoning` when the lowercased type
contains `reasoning` or `thinking`, `text` otherwise (also when absent). -/
def classifyPartKind (rawType : Option Str) : PartKind :=
  match rawType with
  | some t =>
    if containsSub (strL "reasoning") (lowerStr t) || containsSub (strL "thinking") (lowerStr t)
    then .reasoning else .text
  | none => .text

/-- The kind used for a delta: the recorded kind of its part id when present,
else the classification of the raw type (the source's
`partKinds.get(partId) || ...`). -/
def deltaKind (st : RelayState) (partID rawType : Option Str) : PartKind :=
  match partID.bind (lookupKind st.partKinds) with
  | some k => k
  | none => classifyPartKind rawType

/-- The `message.part.delta` handler body: append the delta to the matching
accumulator and record the part id's kind when first seen. -/
def applyDelta (st : RelayState) (partID rawType : Option Str) (delta : Str) :
    RelayState :=
  let kind := deltaKind st partID rawType
  let st1 :=
    match kind with
    | .reasoning => { st with accumulatedReasoning := st.accumulatedReasoning ++ delta }
    | .text => { st with accumulatedText := st.accumulatedText ++ delta }
  match partID with
  | some pid =>
    if (lookupKind st1.partKinds pid).isNone then
      { st1 with partKinds := st1.partKinds ++ [(pid, kind)] }
    else st1
  | none => st1

/-- The resolution value `accumulatedText || "(No response)"` together with
the accumulated reasoning. -/
def relayFinish (st : RelayState) : RelayResult :=
  { aiResponse := if st.accumulatedText = [] then noResponseStr else st.accumulatedText,
    reasoning := st.accumulatedReasoning }

/-- Whether an event is a `message.part.delta` event. -/
def SseEvent.isDelta : SseEvent → Bool
  | .partDelta _ _ _ _ => true
  | _ => false

/-- The successful completion paths of `relayMessageStreaming`'s SSE loop:
consume the parsed events in order — deltas for the bound session accumulate
(a JS-falsy empty delta is skipped), `message.part.added` records part kinds,
a `session.status` of `idle` for the session resolves immediately, tool events
leave the accumulators alone — and if the stream ends without completing,
resolve with the same `accumulatedText || "(No response)"` fallback. -/
def relayStreamLoop (sessionId : Str) : List SseEvent → RelayState → RelayResult
  | [], st => relayFinish st
  | e :: rest, st =>
    match e with
    | .partDelta sid partID rawType delta =>
      if delta ≠ [] ∧ sid = sessionId then
        relayStreamLoop sessionId rest (applyDelta st partID rawType delta)
      else relayStreamLoop sessionId rest st
    | .partAdded sid partID rawType =>
      if sid = sessionId then
        match partID, rawType with
        | some pid, some t =>
          relayStreamLoop sessionId rest
            { st with partKinds := setKind st.partKinds pid (classifyPartKind (some t)) }
        | _, _ => relayStreamLoop sessionId rest st
      else relayStreamLoop sessionId rest st
    | .sessionStatus sid statusType =>
      if sid = sessionId ∧ statusType = idleStr then relayFinish st
      else relayStreamLoop sessionId rest st
    | .toolInvoke _ _ _ => relayStreamLoop sessionId rest st
    | .otherEvent => relayStreamLoop sessionId rest st

/-- Empty relay accumulator state. -/
def relayStateEmpty : RelayState :=
  { accumulatedText := [], accumulatedReasoning := [], partKinds := [] }

-- ---------------------------------------------------------------------------
-- Helper lemmas
-- ---------------------------------------------------------------------------

theorem splitOnChar_ne_nil (sep : Char) (s : Str) : splitOnChar sep s ≠ [] := by
  induction s with
  | nil => simp [splitOnChar]
  | cons c cs ih =>
    simp only [splitOnChar]
    match h : splitOnChar sep cs with
    | [] => exact absurd h ih
    | r :: rs =>
      by_cases hc : c = sep <;> simp [hc]

theorem splitOnChar_not_mem {sep : Char} {s : Str} (h : sep ∉ s) :
    splitOnChar sep s = [s] := by
  induction s with
  | nil => rfl
  | cons c cs ih =>
    have hc : c ≠ sep := fun hcs => h (hcs ▸ List.mem_cons_self c cs)
    have hcs : sep ∉ cs := fun hm => h (List.mem_cons_of_mem c hm)
    simp only [splitOnChar, ih hcs]
    simp [hc]

theorem splitOnChar_append {sep : Char} {a : Str} (rest : Str) (h : sep ∉ a) :
    splitOnChar sep (a ++ sep :: rest) = a :: splitOnChar sep rest := by
  induction a with
  | nil =>
    simp only [List.nil_append, splitOnChar]
    match hr : splitOnChar sep rest with
    | [] => exact absurd hr (splitOnChar_ne_nil sep rest)
    | r :: rs => simp
  | cons c a' ih =>
    have hc : c ≠ sep := fun hcs => h (hcs ▸ List.mem_cons_self c a')
    have ha' : sep ∉ a' := fun hm => h (List.mem_cons_of_mem c hm)
    simp only [List.cons_append, splitOnChar, List.append_eq]
    rw [ih ha']
    simp [hc]

theorem splitOnChar_three {sep : Char} {a b c : Str}
    (ha : sep ∉ a) (hb : sep ∉ b) (hc : sep ∉ c) :
    splitOnChar sep (a ++ sep :: (b ++ sep :: c)) = [a, b, c] := by
  rw [splitOnChar_append _ ha, splitOnChar_append _ hb, splitOnChar_not_mem hc]

theorem findAvailablePortLoop_some (used bindOk : Nat → Bool) (max : Nat) :
    ∀ fuel port p, findAvailablePortLoop used bindOk max fuel port = some p →
      port ≤ p ∧ p ≤ max ∧ used p = false ∧ bindOk p = true ∧
      ∀ q, port ≤ q → q < p → (used q = true ∨ bindOk q = false) := by
  intro fuel
  induction fuel with
  | zero => intro port p h; simp [findAvailablePortLoop] at h
  | succ n ih =>
    intro port p h
    simp only [findAvailablePortLoop] at h
    by_cases hle : port ≤ max
    · rw [if_pos hle] at h
      by_cases hu : used port
      · rw [if_pos hu] at h
        obtain ⟨h1, h2, h3, h4, h5⟩ := ih (port + 1) p h
        refine ⟨by omega, h2, h3, h4, fun q hq1 hq2 => ?_⟩
        by_cases hq : q = port
        · exact Or.inl (hq ▸ hu)
        · exact h5 q (by omega) hq2
      · rw [if_neg hu] at h
        by_cases hb : bindOk port
        · rw [if_pos hb] at h
          obtain rfl : port = p := by simpa using h
          exact ⟨le_rfl, hle, by simpa using hu, hb, fun q hq1 hq2 => by omega⟩
        · rw [if_neg hb] at h
          obtain ⟨h1, h2, h3, h4, h5⟩ := ih (port + 1) p h
          refine ⟨by omega, h2, h3, h4, fun q hq1 hq2 => ?_⟩
          by_cases hq : q = port
          · exact Or.inr (hq ▸ by simpa using hb)
          · exact h5 q (by omega) hq2
    · rw [if_neg hle] at h
      exact absurd h (by simp)

theorem findAvailablePortLoop_none (used bindOk : Nat → Bool) (max : Nat) :
    ∀ fuel port, max + 1 ≤ port + fuel →
      (findAvailablePortLoop used bindOk max fuel port = none ↔
        ∀ q, port ≤ q → q ≤ max → (used q = true ∨ bindOk q = false)) := by
  intro fuel
  induction fuel with
  | zero =>
    intro port hf
    constructor
    · intro _ q hq1 hq2; omega
    · intro _; rfl
  | succ n ih =>
    intro port hf
    simp only [findAvailablePortLoop]
    by_cases hle : port ≤ max
    · rw [if_pos hle]
      by_cases hu : used port
      · rw [if_pos hu, ih (port + 1) (by omega)]
        constructor
        · intro h q hq1 hq2
          by_cases hq : q = port
          · exact Or.inl (hq ▸ hu)
          · exact h q (by omega) hq2
        · intro h q hq1 hq2; exact h q (by omega) hq2
      · rw [if_neg hu]
        by_cases hb : bindOk port
        · rw [if_pos hb]
          constructor
          · intro h; exact absurd h (by simp)
          · intro h
            rcases h port le_rfl hle with h1 | h1
            · exact absurd h1 (by simpa using hu)
            · exact absurd h1 (by simpa using hb)
        · rw [if_neg hb, ih (port + 1) (by omega)]
          constructor
          · intro h q hq1 hq2
            by_cases hq : q = port
            · exact Or.inr (hq ▸ by simpa using hb)
            · exact h q (by omega) hq2
          · intro h q hq1 hq2; exact h q (by omega) hq2
    · rw [if_neg hle]
      constructor
      · intro _ q hq1 hq2; omega
      · intro _; rfl

/-- Claim C2: `findAvailablePort` scans the inclusive range `[min, max]` in
ascending order, skips ports held by tracked workers, returns the first port
that both is unclaimed and passes the bind probe, and reports exhaustion
(models the thrown `No available ports` error) iff no port in the range is
both unclaimed and bindable. -/
theorem findAvailablePort_spec (min max : Nat) (used bindOk : Nat → Bool) :
    (∀ p, findAvailablePort min max used bindOk = some p →
      min ≤ p ∧ p ≤ max ∧ used p = false ∧ bindOk p = true ∧
      ∀ q, min ≤ q → q < p → (used q = true ∨ bindOk q = false)) ∧
    (findAvailablePort min max used bindOk = none ↔
      ∀ q, min ≤ q → q ≤ max → (used q = true ∨ bindOk q = false)) := by
  constructor
  · intro p h
    exact findAvailablePortLoop_some used bindOk max (max + 1 - min) min p h
  · exact findAvailablePortLoop_none used bindOk max (max + 1 - min) min (by omega)

/-- Witness for C2: on range `[3, 5]` with port 3 claimed and every port
bindable, the allocator returns 4, and the characterization instantiates. -/
theorem findAvailablePort_spec_witness :
    3 ≤ 4 ∧ 4 ≤ 5 ∧ (fun q => decide (q = 3)) 4 = false ∧
      (fun _ : Nat => true) 4 = true ∧
      ∀ q, 3 ≤ q → q < 4 →
        ((fun q => decide (q = 3)) q = true ∨ (fun _ : Nat => true) q = false) :=
  (findAvailablePort_spec 3 5 (fun q => decide (q = 3)) (fun _ => true)).1 4 (by decide)

theorem lookupProc_touchProc_self (m : ProcMap) (d : Str) (now : Nat) :
    lookupProc (touchProc m d now) d =
      (lookupProc m d).map (fun r => { r with lastActivity := now }) := by
  induction m with
  | nil => rfl
  | cons r rs ih =>
    by_cases hr : r.path = d
    · simp [touchProc, lookupProc, hr]
    · simp [touchProc, lookupProc, hr, ih]

theorem lookupProc_touchProc_ne (m : ProcMap) (d d' : Str) (now : Nat)
    (h : d' ≠ d) :
    lookupProc (touchProc m d now) d' = lookupProc m d' := by
  induction m with
  | nil => rfl
  | cons r rs ih =>
    have h' : ¬ d = d' := fun hx => h hx.symm
    by_cases hr : r.path = d
    · simp [touchProc, lookupProc, hr, h', h]
    · by_cases hr' : r.path = d'
      · simp [touchProc, lookupProc, hr, hr', h, h']
      · simp [touchProc, lookupProc, hr, hr', ih, h]

theorem procPaths_touchProc (m : ProcMap) (d : Str) (now : Nat) :
    procPaths (touchProc m d now) = procPaths m := by
  induction m with
  | nil => rfl
  | cons r rs ih =>
    by_cases hr : r.path = d
    · simp [touchProc, procPaths, hr]
    · simp only [touchProc, if_neg hr, procPaths, List.map_cons]
      simpa [procPaths] using ih

theorem eraseProc_of_lookup_none (m : ProcMap) (d : Str)
    (h : lookupProc m d = none) : eraseProc m d = m := by
  induction m with
  | nil => rfl
  | cons r rs ih =>
    simp only [lookupProc] at h
    by_cases hr : r.path = d
    · simp [hr] at h
    · rw [if_neg hr] at h
      simp [eraseProc, hr, List.filter_cons]
      simpa [eraseProc] using ih h

/-- Claim C1: when `activeProcesses` already holds a record for the directory,
`startOpencodeServe` returns that record's port and pid, performs no process
effect (spawns nothing), only refreshes that record's `lastActivity`, leaves
every other directory's lookup unchanged, and preserves the one-record-per-
directory invariant of the map. -/
theorem startOpencodeServe_existing (portMin portMax : Nat) (bindOk : Nat → Bool)
    (m : ProcMap) (directory : Str) (now spawnPid : Nat) (healthOk : Bool)
    (r : ActiveProcess) (hx : lookupProc m directory = some r) :
    startOpencodeServe portMin portMax bindOk m directory now spawnPid healthOk =
      (.ok r.port r.pid, touchProc m directory now, []) ∧
    lookupProc (touchProc m directory now) directory =
      some { r with lastActivity := now } ∧
    (∀ d, d ≠ directory →
      lookupProc (touchProc m directory now) d = lookupProc m d) ∧
    procPaths (touchProc m directory now) = procPaths m ∧
    ((procPaths m).Nodup → (procPaths (touchProc m directory now)).Nodup) := by
  refine ⟨?_, ?_, ?_, ?_, ?_⟩
  · simp [startOpencodeServe, hx]
  · rw [lookupProc_touchProc_self, hx]; rfl
  · intro d hd; exact lookupProc_touchProc_ne m directory d now hd
  · exact procPaths_touchProc m directory now
  · intro hnd; rw [procPaths_touchProc]; exact hnd

/-- Witness for C1: a second `startOpencodeServe` call for a directory that
already has a record returns the stored port and pid and spawns nothing. -/
theorem startOpencodeServe_existing_witness :
    startOpencodeServe 4096 8192 (fun _ => true) procMapW
        (strL "/home/u/Documents/proj") 20 99 true =
      (.ok 4096 42, touchProc procMapW (strL "/home/u/Documents/proj") 20, []) ∧
    lookupProc (touchProc procMapW (strL "/home/u/Documents/proj") 20)
        (strL "/home/u/Documents/proj") = some { procW with lastActivity := 20 } := by
  have h := startOpencodeServe_existing 4096 8192 (fun _ => true) procMapW
    (strL "/home/u/Documents/proj") 20 99 true procW (by decide)
  exact ⟨h.1, h.2.1⟩

theorem eraseProc_append_fresh (m : ProcMap) (directory : Str) (port pid now : Nat)
    (h : lookupProc m directory = none) :
    eraseProc (m ++ [ActiveProcess.mk directory port pid now now]) directory = m := by
  unfold eraseProc
  rw [List.filter_append]
  have h1 := eraseProc_of_lookup_none m directory h
  unfold eraseProc at h1
  rw [h1]
  simp [List.filter_cons]

/-- Claim C8: when the freshly spawned worker never reports healthy within the
startup budget (`healthOk = false`), `startOpencodeServe` kills the process it
spawned, leaves the `activeProcesses` map exactly as it was (so no record for
the directory), and fails with the startup error. -/
theorem startOpencodeServe_timeout (portMin portMax : Nat) (bindOk : Nat → Bool)
    (m : ProcMap) (directory : Str) (now spawnPid port : Nat)
    (habs : lookupProc m directory = none)
    (halloc : findAvailablePort portMin portMax (usedPorts m) bindOk = some port) :
    startOpencodeServe portMin portMax bindOk m directory now spawnPid false =
      (.startupTimeout, m, [.spawnProc spawnPid port, .killProc spawnPid]) ∧
    lookupProc m directory = none := by
  refine ⟨?_, habs⟩
  simp only [startOpencodeServe, habs, halloc]
  simp [eraseProc_append_fresh m directory port spawnPid now habs]

/-- Witness for C8: starting a worker in an empty map with an unhealthy child
kills pid 99 and leaves the map empty. -/
theorem startOpencodeServe_timeout_witness :
    startOpencodeServe 4096 8192 (fun _ => true) [] (strL "/home/u/Documents/p2")
        30 99 false =
      (.startupTimeout, [], [.spawnProc 99 4096, .killProc 99]) ∧
    lookupProc [] (strL "/home/u/Documents/p2") = none := by
  have h := startOpencodeServe_timeout 4096 8192 (fun _ => true) []
    (strL "/home/u/Documents/p2") 30 99 4096 (by rfl) (by decide)
  exact h

theorem verifyJwt_createJwt (P : JwtPrims) (secret : Str) (p : JwtPayload)
    (allowExpired : Bool) (nowMs : Nat)
    (hd1 : '.' ∉ P.b64enc headerJson)
    (hd2 : '.' ∉ P.b64enc (P.stringify p))
    (hd3 : '.' ∉ P.hmac secret (P.b64enc headerJson ++ ('.' :: P.b64enc (P.stringify p))))
    (hparse : P.parse (P.b64dec (P.b64enc (P.stringify p))) = some p) :
    verifyJwt P (createJwt P p secret) secret allowExpired nowMs =
      if !allowExpired && jwtExpired p.exp nowMs then none else some p := by
  simp only [createJwt, verifyJwt]
  rw [splitOnChar_three hd1 hd2 hd3]
  simp [hparse]

/-- Claim C9: verifying a freshly created token with the same secret returns
the original payload — with `allowExpired` the round trip is unconditional,
and with expiry checking it holds whenever the payload's expiry is absent or
strictly in the future.  The hypotheses are the library round-trip facts for
base64url and JSON on this payload. -/
theorem verifyJwt_createJwt_roundtrip (P : JwtPrims) (secret : Str)
    (p : JwtPayload) (nowMs : Nat)
    (hd1 : '.' ∉ P.b64enc headerJson)
    (hd2 : '.' ∉ P.b64enc (P.stringify p))
    (hd3 : '.' ∉ P.hmac secret (P.b64enc headerJson ++ ('.' :: P.b64enc (P.stringify p))))
    (hparse : P.parse (P.b64dec (P.b64enc (P.stringify p))) = some p) :
    verifyJwt P (createJwt P p secret) secret true nowMs = some p ∧
    ((p.exp = none ∨ ∃ t, p.exp = some t ∧ nowMs < 1000 * t) →
      verifyJwt P (createJwt P p secret) secret false nowMs = some p) := by
  constructor
  · rw [verifyJwt_createJwt P secret p true nowMs hd1 hd2 hd3 hparse]
    simp
  · intro h
    rw [verifyJwt_createJwt P secret p false nowMs hd1 hd2 hd3 hparse]
    rcases h with hnone | ⟨t, ht, hlt⟩
    · simp [jwtExpired, hnone]
    · have hx : jwtExpired p.exp nowMs = false := by
        simp [jwtExpired, ht]
        omega
      simp [hx]

/-- Witness for C9: the concrete round trip, both with and without expiry
checking, at a time before the witness payload's expiry. -/
theorem verifyJwt_createJwt_roundtrip_witness :
    verifyJwt jwtPrimsW tokenW secretW true 5 = some payloadW ∧
    verifyJwt jwtPrimsW tokenW secretW false 5 = some payloadW := by
  have h := verifyJwt_createJwt_roundtrip jwtPrimsW secretW payloadW 5
    (by decide) (by decide) (by decide) (by decide)
  exact ⟨h.1, h.2 (Or.inr ⟨100, rfl, by decide⟩)⟩

/-- Claim C4 counterexample: a correctly signed token with expiry claim
`t = 100` checked exactly at time `t` (nowMs = 1000·t) still verifies to its
claims, whereas the claim requires `null` for every check at time ≥ t — the
source rejects only on `Date.now()/1000 > exp`, a strict comparison. -/
theorem verifyJwt_at_expiry_counterexample :
    payloadW.exp = some 100 ∧
    verifyJwt jwtPrimsW tokenW secretW false (1000 * 100) = some payloadW := by
  constructor
  · rfl
  · decide

/-- Claim C4 (amended): for every token carrying a correct signature and a
nonzero expiry claim `t`, `verifyJwt` with `allowExpired` false returns the
claims for every check at current time at most `t` (in milliseconds, nowMs ≤
1000·t) and returns null for every check strictly after `t`; a zero expiry
claim is JS-falsy and is never checked. -/
theorem verifyJwt_expiry_boundary (P : JwtPrims) (secret header body : Str)
    (p : JwtPayload) (t nowMs : Nat)
    (hd1 : '.' ∉ header) (hd2 : '.' ∉ body)
    (hd3 : '.' ∉ P.hmac secret (header ++ ('.' :: body)))
    (hparse : P.parse (P.b64dec body) = some p)
    (hexp : p.exp = some t) (ht : t ≠ 0) :
    (nowMs ≤ 1000 * t →
      verifyJwt P (header ++ ('.' :: (body ++ ('.' :: P.hmac secret (header ++ ('.' :: body))))))
        secret false nowMs = some p) ∧
    (1000 * t < nowMs →
      verifyJwt P (header ++ ('.' :: (body ++ ('.' :: P.hmac secret (header ++ ('.' :: body))))))
        secret false nowMs = none) := by
  constructor
  · intro hle
    have hx : jwtExpired p.exp nowMs = false := by
      simp [jwtExpired, hexp]
      omega
    simp only [verifyJwt]
    rw [splitOnChar_three hd1 hd2 hd3]
    simp [hparse, hx]
  · intro hlt
    have hx : jwtExpired p.exp nowMs = true := by
      simp [jwtExpired, hexp]
      omega
    simp only [verifyJwt]
    rw [splitOnChar_three hd1 hd2 hd3]
    simp [hparse, hx]

/-- Witness for the amended C4: the concrete token verifies at exactly its
expiry instant and is rejected one millisecond later. -/
theorem verifyJwt_expiry_boundary_witness :
    verifyJwt jwtPrimsW tokenW secretW false 100000 = some payloadW ∧
    verifyJwt jwtPrimsW tokenW secretW false 100001 = none := by
  have h1 := verifyJwt_expiry_boundary jwtPrimsW secretW (jwtPrimsW.b64enc headerJson)
    (jwtPrimsW.b64enc (jwtPrimsW.stringify payloadW)) payloadW 100 100000
    (by decide) (by decide) (by decide) (by decide) rfl (by decide)
  have h2 := verifyJwt_expiry_boundary jwtPrimsW secretW (jwtPrimsW.b64enc headerJson)
    (jwtPrimsW.b64enc (jwtPrimsW.stringify payloadW)) payloadW 100 100001
    (by decide) (by decide) (by decide) (by decide) rfl (by decide)
  exact ⟨h1.1 (by decide), h2.2 (by decide)⟩

/-- Claim C5 counterexample: a validly signed token with expiry `t = 100` s
refreshed at time 1 s — strictly before `t`, hence outside the claimed window
`[t, t + grace]` — succeeds and mints a fresh token, whereas the claim
requires failure at any time outside that window. -/
theorem handleRefreshJwt_before_expiry_counterexample :
    handleRefreshJwt jwtPrimsW secretW (some tokenW) 1000 =
      .ok (createJwt jwtPrimsW { payloadW with iat := 1, exp := some 2592001 } secretW) ∧
    1000 < 1000 * 100 := by
  constructor
  · rfl
  · decide

/-- Claim C5 (amended): for a validly signed token with nonzero expiry `t`,
refresh succeeds iff the current time is at most `t + grace` — including all
times before `t` — and then mints a new token carrying the old subject/host
fields forward with fresh issued-at and a fresh 30-day expiry; strictly beyond
`t + grace` it fails with the JWT-expired error and mints nothing. -/
theorem handleRefreshJwt_grace (P : JwtPrims) (secret : Str) (p : JwtPayload)
    (t nowMs : Nat)
    (hd1 : '.' ∉ P.b64enc headerJson)
    (hd2 : '.' ∉ P.b64enc (P.stringify p))
    (hd3 : '.' ∉ P.hmac secret (P.b64enc headerJson ++ ('.' :: P.b64enc (P.stringify p))))
    (hparse : P.parse (P.b64dec (P.b64enc (P.stringify p))) = some p)
    (hexp : p.exp = some t) (ht : t ≠ 0) :
    (nowMs ≤ 1000 * t + refreshGraceMs →
      handleRefreshJwt P secret (some (createJwt P p secret)) nowMs =
        .ok (createJwt P { p with iat := nowMs / 1000, exp := some (nowMs / 1000 + 30 * 24 * 60 * 60) } secret)) ∧
    (1000 * t + refreshGraceMs < nowMs →
      handleRefreshJwt P secret (some (createJwt P p secret)) nowMs =
        .error jwtExpiredMsg) := by
  have hv : verifyJwt P (createJwt P p secret) secret true nowMs = some p := by
    rw [verifyJwt_createJwt P secret p true nowMs hd1 hd2 hd3 hparse]
    simp
  constructor
  · intro hle
    have hg : isJwtBeyondGrace p refreshGraceMs nowMs = false := by
      by_cases h0 : 1000 * t = 0
      · simp [isJwtBeyondGrace, hexp, h0]
      · simp [isJwtBeyondGrace, hexp, h0]
        omega
    simp [handleRefreshJwt, hv, hg]
  · intro hlt
    have hg : isJwtBeyondGrace p refreshGraceMs nowMs = true := by
      have h0 : ¬ (1000 * t = 0) := by omega
      simp [isJwtBeyondGrace, hexp, h0]
      omega
    simp [handleRefreshJwt, hv, hg]

/-- Witness for the amended C5: the concrete token refreshed at 50000 s —
before its expiry too — yields the carried-forward payload with fresh
issued-at and expiry. -/
theorem handleRefreshJwt_grace_witness :
    handleRefreshJwt jwtPrimsW secretW (some tokenW) 50000000 =
      .ok (createJwt jwtPrimsW { payloadW with iat := 50000, exp := some 2642000 } secretW) := by
  have h := handleRefreshJwt_grace jwtPrimsW secretW payloadW 100 50000000
    (by decide) (by decide) (by decide) (by decide) rfl (by decide)
  exact h.1 (by decide)

/-- Claim C3 exhibit (code bug): with base path `/base`, the request
`../baseEvil` resolves to `/baseEvil`, which escapes the base directory, yet
the `fullPath.startsWith(basePath)` guard accepts it, so `listDirectories`
proceeds to its first filesystem call (`existsSync`, then `readdirSync`) on a
path outside the base — the source's own `Security: ensure we don't escape
basePath` comment notwithstanding, escaping resolutions that extend the base
path as a string are not rejected. -/
theorem listDirectories_prefix_guard_bug :
    listDirectories (strL "/base") (strL "../baseEvil") = .fsAccess (strL "/baseEvil") ∧
    escapesBase (strL "/base") (strL "/baseEvil") = true := by
  constructor
  · decide
  · decide

/-- Claim C6 counterexample: with the relay blocked on pending tool-call id
`call-a`, submitting a result carrying the mismatched id `call-b` does affect
the pending wait — the poll loop unblocks at its first poll and forwards the
mismatched id and payload to the worker's tool endpoint — whereas the claim
requires a mismatched submission to leave the pending wait untouched. -/
theorem pollToolResult_mismatch_counterexample :
    (submitToolResult reqDocW (strL "call-b") (strL "answer")).toolResult =
      some ⟨strL "call-b", strL "answer"⟩ ∧
    pollAndSubmitToolResult
        (fun _ => (submitToolResult reqDocW (strL "call-b") (strL "answer")).toolResult)
        (fun _ => true) [(ridW, pendingW)] ridW 600 0 =
      ⟨true, some ⟨strL "call-b", strL "answer"⟩, []⟩ ∧
    pendingW.toolCallId ≠ strL "call-b" := by
  refine ⟨rfl, by decide, by decide⟩

/-- Claim C6 (amended): submitting a result for the blocked request's id
unblocks the pending wait at the first poll that sees it and forwards exactly
the submitted tool-call id and payload to the worker's tool endpoint, whether
or not that id matches the pending invocation's — no id comparison is made —
and on a successful forward the pending entry is removed. -/
theorem pollToolResult_forwards_submitted (status : Nat → Option ToolResult)
    (workerOk : ToolResult → Bool) (pt : PendingMap) (requestId : Str)
    (tr : ToolResult) :
    ∀ j fuel k, j < fuel → (∀ i, i < j → status (k + i) = none) →
      status (k + j) = some tr → workerOk tr = true →
      pollAndSubmitToolResult status workerOk pt requestId fuel k =
        ⟨true, some tr, erasePending pt requestId⟩ := by
  intro j
  induction j with
  | zero =>
    intro fuel k hj hb hat hok
    obtain ⟨f, rfl⟩ : ∃ f, fuel = f + 1 := ⟨fuel - 1, by omega⟩
    simp only [Nat.add_zero] at hat
    simp [pollAndSubmitToolResult, hat, hok]
  | succ n ih =>
    intro fuel k hj hb hat hok
    obtain ⟨f, rfl⟩ : ∃ f, fuel = f + 1 := ⟨fuel - 1, by omega⟩
    have h0 : status k = none := by simpa using hb 0 (by omega)
    simp only [pollAndSubmitToolResult, h0]
    refine ih f (k + 1) (by omega) ?_ ?_ hok
    · intro i hi
      have hx := hb (i + 1) (by omega)
      rw [show k + 1 + i = k + (i + 1) from by omega]
      exact hx
    · rw [show k + 1 + n = k + (n + 1) from by omega]
      exact hat

/-- Witness for the amended C6: a result submitted before the first poll is
forwarded as-is and the pending entry is deleted. -/
theorem pollToolResult_forwards_submitted_witness :
    pollAndSubmitToolResult (fun _ => some toolResultW) (fun _ => true)
        [(ridW, pendingW)] ridW 600 0 =
      ⟨true, some toolResultW, erasePending [(ridW, pendingW)] ridW⟩ :=
  pollToolResult_forwards_submitted (fun _ => some toolResultW) (fun _ => true)
    [(ridW, pendingW)] ridW toolResultW 0 600 0 (by decide)
    (fun i hi => absurd hi (Nat.not_lt_zero i)) rfl rfl

set_option maxRecDepth 8192 in
/-- Claim C7 counterexample: when the bounded tool-result wait times out (no
result is ever submitted within the budget), the PendingToolInvocation entry
is not removed — the poll loop returns false with the pending map untouched,
the stale entry still registered — whereas the claim requires the entry to be
destroyed on the timeout exit path too. -/
theorem pollToolResult_timeout_counterexample :
    pollAndSubmitToolResult (fun _ => none) (fun _ => true)
        [(ridW, pendingW)] ridW 600 0 = ⟨false, none, [(ridW, pendingW)]⟩ ∧
    lookupPending [(ridW, pendingW)] ridW = some pendingW := by
  constructor
  · decide
  · decide

/-- Claim C7 (amended): the pending-tools entry for the request is removed
when a result is submitted and successfully forwarded to the worker, and only
then — whenever `pollAndSubmitToolResult` returns true the entry has been
deleted, whenever it returns false the pending map comes back unchanged — so
in particular a wait that times out without ever seeing a submitted result
leaves the stale entry registered. -/
theorem pollToolResult_cleanup (status : Nat → Option ToolResult)
    (workerOk : ToolResult → Bool) (pt : PendingMap) (requestId : Str) :
    ∀ fuel k,
      ((pollAndSubmitToolResult status workerOk pt requestId fuel k).submitted = true →
        (pollAndSubmitToolResult status workerOk pt requestId fuel k).pendingTools =
          erasePending pt requestId) ∧
      ((pollAndSubmitToolResult status workerOk pt requestId fuel k).submitted = false →
        (pollAndSubmitToolResult status workerOk pt requestId fuel k).pendingTools = pt) ∧
      ((∀ j, j < fuel → status (k + j) = none) →
        pollAndSubmitToolResult status workerOk pt requestId fuel k =
          ⟨false, none, pt⟩) := by
  intro fuel
  induction fuel with
  | zero =>
    intro k
    refine ⟨?_, ?_, ?_⟩
    · intro h
      simp [pollAndSubmitToolResult] at h
    · intro _
      rfl
    · intro _
      rfl
  | succ n ih =>
    intro k
    have hcases : status k = none ∨ ∃ tr, status k = some tr := by
      cases status k with
      | none => exact Or.inl rfl
      | some tr => exact Or.inr ⟨tr, rfl⟩
    refine ⟨?_, ?_, ?_⟩
    · intro h
      simp only [pollAndSubmitToolResult] at h ⊢
      rcases hcases with hs | ⟨tr, hs⟩
      · rw [hs] at h ⊢
        exact (ih (k + 1)).1 h
      · rw [hs] at h ⊢
        by_cases hw : workerOk tr
        · simp [hw]
        · simp [hw] at h
    · intro h
      simp only [pollAndSubmitToolResult] at h ⊢
      rcases hcases with hs | ⟨tr, hs⟩
      · rw [hs] at h ⊢
        exact (ih (k + 1)).2.1 h
      · rw [hs] at h ⊢
        by_cases hw : workerOk tr
        · simp [hw] at h
        · simp [hw]
    · intro hall
      have h0 : status k = none := by simpa using hall 0 (by omega)
      simp only [pollAndSubmitToolResult, h0]
      refine (ih (k + 1)).2.2 ?_
      intro j hj
      have hx := hall (j + 1) (by omega)
      rw [show k + 1 + j = k + (j + 1) from by omega]
      exact hx

/-- Witness for the amended C7: a wait of three polls with no submission
returns false with the one-entry pending map intact, a successful run deletes
the entry, and a run whose forward the worker rejects keeps the entry. -/
theorem pollToolResult_cleanup_witness :
    pollAndSubmitToolResult (fun _ => none) (fun _ => true)
        [(ridW, pendingW)] ridW 3 0 = ⟨false, none, [(ridW, pendingW)]⟩ ∧
    (pollAndSubmitToolResult (fun _ => some toolResultW) (fun _ => true)
        [(ridW, pendingW)] ridW 3 0).pendingTools =
      erasePending [(ridW, pendingW)] ridW ∧
    (pollAndSubmitToolResult (fun _ => some toolResultW) (fun _ => false)
        [(ridW, pendingW)] ridW 3 0).pendingTools = [(ridW, pendingW)] := by
  refine ⟨?_, ?_, ?_⟩
  · exact (pollToolResult_cleanup (fun _ => none) (fun _ => true)
      [(ridW, pendingW)] ridW 3 0).2.2 (fun j hj => rfl)
  · exact (pollToolResult_cleanup (fun _ => some toolResultW) (fun _ => true)
      [(ridW, pendingW)] ridW 3 0).1 (by decide)
  · exact (pollToolResult_cleanup (fun _ => some toolResultW) (fun _ => false)
      [(ridW, pendingW)] ridW 3 0).2.1 (by decide)

theorem relayFinish_aiResponse_ne_nil (st : RelayState) :
    (relayFinish st).aiResponse ≠ [] := by
  unfold relayFinish
  by_cases h : st.accumulatedText = []
  · simp [h, noResponseStr, strL]
  · simp [h]

theorem relayStreamLoop_ne_nil (sessionId : Str) :
    ∀ (events : List SseEvent) (st : RelayState),
      (relayStreamLoop sessionId events st).aiResponse ≠ [] := by
  intro events
  induction events with
  | nil => intro st; exact relayFinish_aiResponse_ne_nil st
  | cons e rest ih =>
    intro st
    cases e with
    | partDelta sid partID rawType delta =>
      simp only [relayStreamLoop]
      by_cases h : delta ≠ [] ∧ sid = sessionId
      · rw [if_pos h]; exact ih _
      · rw [if_neg h]; exact ih _
    | partAdded sid partID rawType =>
      simp only [relayStreamLoop]
      by_cases h : sid = sessionId
      · rw [if_pos h]
        cases partID with
        | some pid =>
          cases rawType with
          | some t => exact ih _
          | none => exact ih _
        | none => exact ih _
      · rw [if_neg h]; exact ih _
    | sessionStatus sid statusType =>
      simp only [relayStreamLoop]
      by_cases h : sid = sessionId ∧ statusType = idleStr
      · rw [if_pos h]; exact relayFinish_aiResponse_ne_nil st
      · rw [if_neg h]; exact ih _
    | toolInvoke a b c => exact ih st
    | otherEvent => exact ih st

theorem relayStreamLoop_no_delta (sessionId : Str) :
    ∀ (events : List SseEvent) (st : RelayState),
      st.accumulatedText = [] →
      (∀ e ∈ events, e.isDelta = false) →
      (relayStreamLoop sessionId events st).aiResponse = noResponseStr := by
  intro events
  induction events with
  | nil =>
    intro st hst _
    simp [relayStreamLoop, relayFinish, hst]
  | cons e rest ih =>
    intro st hst hall
    have hrest : ∀ x ∈ rest, SseEvent.isDelta x = false :=
      fun x hx => hall x (List.mem_cons_of_mem e hx)
    cases e with
    | partDelta sid partID rawType delta =>
      exact absurd (hall _ (List.mem_cons_self _ _)) (by simp [SseEvent.isDelta])
    | partAdded sid partID rawType =>
      simp only [relayStreamLoop]
      by_cases h : sid = sessionId
      · rw [if_pos h]
        cases partID with
        | some pid =>
          cases rawType with
          | some t => exact ih _ hst hrest
          | none => exact ih _ hst hrest
        | none => exact ih _ hst hrest
      · rw [if_neg h]; exact ih _ hst hrest
    | sessionStatus sid statusType =>
      simp only [relayStreamLoop]
      by_cases h : sid = sessionId ∧ statusType = idleStr
      · rw [if_pos h]; simp [relayFinish, hst]
      · rw [if_neg h]; exact ih _ hst hrest
    | toolInvoke a b c => exact ih _ hst hrest
    | otherEvent => exact ih _ hst hrest

/-- Claim C10: the relay's event loop never resolves with an empty response
string — on every successful completion path (session-idle event or stream end
without completion) the resolved `aiResponse` is nonempty, and when no text
delta was accumulated it is exactly the `"(No response)"` placeholder. -/
theorem relayMessageStreaming_no_empty_response (sessionId : Str)
    (events : List SseEvent) (st : RelayState) :
    (relayStreamLoop sessionId events st).aiResponse ≠ [] ∧
    (st.accumulatedText = [] → (∀ e ∈ events, e.isDelta = false) →
      (relayStreamLoop sessionId events st).aiResponse = noResponseStr) :=
  ⟨relayStreamLoop_ne_nil sessionId events st,
   fun h1 h2 => relayStreamLoop_no_delta sessionId events st h1 h2⟩

/-- Witness for C10: a stream that goes idle with nothing accumulated resolves
with the placeholder, not the empty string. -/
theorem relayMessageStreaming_no_empty_response_witness :
    (relayStreamLoop (strL "s") [SseEvent.sessionStatus (strL "s") idleStr]
      relayStateEmpty).aiResponse ≠ [] ∧
    (relayStreamLoop (strL "s") [SseEvent.sessionStatus (strL "s") idleStr]
      relayStateEmpty).aiResponse = noResponseStr := by
  have h := relayMessageStreaming_no_empty_response (strL "s")
    [SseEvent.sessionStatus (strL "s") idleStr] relayStateEmpty
  exact ⟨h.1, h.2 rfl (by decide)⟩
